import Mathlib

/-!
# libtins: exception hierarchy, option framework, PDU lookup, stream reassembly

The first part embeds `include/tins/exceptions.h`: the class table (direct base,
access of the base, `what()` override, declared constructors), the C++ rule by
which a handler matches a thrown object, and the value `what()` returns.

The second part models the operations the specification describes for the
option framework, the PDU chain lookup and the TCP half-stream reassembly.
-/

namespace Tins

/-! ## The classes of `exceptions.h` -/

/-- Access of a base class in a class head. -/
inductive Access
  | pub
  | priv
  deriving DecidableEq, Repr

/-- The exception classes: the two standard bases reached from `exceptions.h`
and the 28 classes the header declares. -/
inductive ExcType
  | std_exception
  | std_runtime_error
  | exception_base
  | option_not_found
  | malformed_packet
  | serialization_error
  | pdu_not_found
  | invalid_interface
  | invalid_address
  | field_not_present
  | socket_open_error
  | socket_close_error
  | socket_write_error
  | invalid_socket_type
  | unknown_link_type
  | malformed_option
  | bad_tins_cast
  | protocol_disabled
  | feature_disabled
  | option_payload_too_large
  | pcap_error
  | invalid_pcap_filter
  | pdu_not_serializable
  | pcap_open_failed
  | unsupported_function
  | invalid_domain_name
  | stream_not_found
  | callback_not_set
  | invalid_packet
  | invalid_handshake
  deriving DecidableEq, Repr

open ExcType

/-- The qualified name under which the header declares each class. -/
def class_name : ExcType → String
  | std_exception => "std::exception"
  | std_runtime_error => "std::runtime_error"
  | exception_base => "Tins::exception_base"
  | option_not_found => "Tins::option_not_found"
  | malformed_packet => "Tins::malformed_packet"
  | serialization_error => "Tins::serialization_error"
  | pdu_not_found => "Tins::pdu_not_found"
  | invalid_interface => "Tins::invalid_interface"
  | invalid_address => "Tins::invalid_address"
  | field_not_present => "Tins::field_not_present"
  | socket_open_error => "Tins::socket_open_error"
  | socket_close_error => "Tins::socket_close_error"
  | socket_write_error => "Tins::socket_write_error"
  | invalid_socket_type => "Tins::invalid_socket_type"
  | unknown_link_type => "Tins::unknown_link_type"
  | malformed_option => "Tins::malformed_option"
  | bad_tins_cast => "Tins::bad_tins_cast"
  | protocol_disabled => "Tins::protocol_disabled"
  | feature_disabled => "Tins::feature_disabled"
  | option_payload_too_large => "Tins::option_payload_too_large"
  | pcap_error => "Tins::pcap_error"
  | invalid_pcap_filter => "Tins::invalid_pcap_filter"
  | pdu_not_serializable => "Tins::pdu_not_serializable"
  | pcap_open_failed => "Tins::pcap_open_failed"
  | unsupported_function => "Tins::unsupported_function"
  | invalid_domain_name => "Tins::invalid_domain_name"
  | stream_not_found => "Tins::stream_not_found"
  | callback_not_set => "Tins::callback_not_set"
  | invalid_packet => "Tins::invalid_packet"
  | invalid_handshake => "Tins::Crypto::WPA2::invalid_handshake"

/-- The direct base named in each class head, with its access. A class head
`class D : B` written with the class-key `class` and no access specifier makes
`B` a private base; that is the head of `socket_close_error`. -/
def direct_base : ExcType → Option (ExcType × Access)
  | std_exception => none
  | std_runtime_error => some (std_exception, Access.pub)
  | exception_base => some (std_runtime_error, Access.pub)
  | option_not_found => some (exception_base, Access.pub)
  | malformed_packet => some (exception_base, Access.pub)
  | serialization_error => some (exception_base, Access.pub)
  | pdu_not_found => some (exception_base, Access.pub)
  | invalid_interface => some (exception_base, Access.pub)
  | invalid_address => some (exception_base, Access.pub)
  | field_not_present => some (exception_base, Access.pub)
  | socket_open_error => some (exception_base, Access.pub)
  | socket_close_error => some (exception_base, Access.priv)
  | socket_write_error => some (exception_base, Access.pub)
  | invalid_socket_type => some (exception_base, Access.pub)
  | unknown_link_type => some (exception_base, Access.pub)
  | malformed_option => some (exception_base, Access.pub)
  | bad_tins_cast => some (exception_base, Access.pub)
  | protocol_disabled => some (exception_base, Access.pub)
  | feature_disabled => some (exception_base, Access.pub)
  | option_payload_too_large => some (exception_base, Access.pub)
  | pcap_error => some (exception_base, Access.pub)
  | invalid_pcap_filter => some (exception_base, Access.pub)
  | pdu_not_serializable => some (exception_base, Access.pub)
  | pcap_open_failed => some (exception_base, Access.pub)
  | unsupported_function => some (exception_base, Access.pub)
  | invalid_domain_name => some (exception_base, Access.pub)
  | stream_not_found => some (exception_base, Access.pub)
  | callback_not_set => some (exception_base, Access.pub)
  | invalid_packet => some (exception_base, Access.pub)
  | invalid_handshake => some (exception_base, Access.pub)

/-- The string literal returned by the class's own public `what()` override,
`none` for a class that declares no override. -/
def what_literal : ExcType → Option String
  | std_exception => none
  | std_runtime_error => none
  | exception_base => none
  | option_not_found => some "Option not found"
  | malformed_packet => some "Malformed packet"
  | serialization_error => some "Serialization error"
  | pdu_not_found => some "PDU not found"
  | invalid_interface => some "Invalid interface"
  | invalid_address => some "Invalid address"
  | field_not_present => some "Field not present"
  | socket_open_error => none
  | socket_close_error => none
  | socket_write_error => none
  | invalid_socket_type => some "The provided socket type is invalid"
  | unknown_link_type => some "The sniffed link layer PDU type is unknown"
  | malformed_option => some "Malformed option"
  | bad_tins_cast => some "Bad Tins cast"
  | protocol_disabled => some "Protocol disabled"
  | feature_disabled => some "Feature disabled"
  | option_payload_too_large => some "Option payload too large"
  | pcap_error => none
  | invalid_pcap_filter => none
  | pdu_not_serializable => some "PDU not serializable"
  | pcap_open_failed => some "Failed to create pcap handle"
  | unsupported_function => some "Function is not supported on this OS"
  | invalid_domain_name => some "Invalid domain name"
  | stream_not_found => some "Stream not found"
  | callback_not_set => some "Callback not set"
  | invalid_packet => some "Invalid packet"
  | invalid_handshake => some "Invalid WPA2 handshake"

/-- The 28 classes declared in `exceptions.h`, in declaration order. -/
def declared : List ExcType :=
  [exception_base, option_not_found, malformed_packet, serialization_error,
   pdu_not_found, invalid_interface, invalid_address, field_not_present,
   socket_open_error, socket_close_error, socket_write_error,
   invalid_socket_type, unknown_link_type, malformed_option, bad_tins_cast,
   protocol_disabled, feature_disabled, option_payload_too_large, pcap_error,
   invalid_pcap_filter, pdu_not_serializable, pcap_open_failed,
   unsupported_function, invalid_domain_name, stream_not_found,
   callback_not_set, invalid_packet, invalid_handshake]

/-- The base classes of `t`, nearest first, following at most `fuel` class
heads whatever their access. -/
def bases : Nat → ExcType → List ExcType
  | 0, _ => []
  | fuel + 1, t =>
    match direct_base t with
    | some (b, _) => b :: bases fuel b
    | none => []

/-- The accessible bases of `t`, nearest first: the chain of class heads is
followed while the base is public and stops at the first private one. -/
def public_bases : Nat → ExcType → List ExcType
  | 0, _ => []
  | fuel + 1, t =>
    match direct_base t with
    | some (b, Access.pub) => b :: public_bases fuel b
    | _ => []

/-- The longest chain of class heads in the header has three links
(`D : exception_base : std::runtime_error : std::exception`). -/
def hierarchy_depth : Nat := 3

/-- The class `d` is `b` or is derived from `b`, whatever the access. -/
def derives_from (d b : ExcType) : Bool :=
  d == b || (bases hierarchy_depth d).contains b

/-- The rule by which a handler `catch (h&)` matches a thrown object of class
`thrown`: the types are the same, or `h` is an accessible (public) base class
of `thrown`. -/
def handler_catches (h thrown : ExcType) : Bool :=
  h == thrown || (public_bases hierarchy_depth thrown).contains h

/-! ## Exception objects and `what()` -/

/-- The NUL character that ends a C string. -/
def NUL : Char := Char.ofNat 0

/-- The string a `const char*` denotes: the characters of the buffer before
its first NUL. This is what `std::string::c_str()` exposes of a `std::string`
and what `std::string(const char*)` copies. -/
def c_str (s : String) : String :=
  String.mk (s.data.takeWhile (fun c => c != NUL))

/-- An exception object: its class and the `what_arg` stored in the
`std::runtime_error` sub-object. -/
structure Exception where
  type : ExcType
  message : String
  deriving DecidableEq, Repr

/-- The constructors each class has. `none` is the constructor without
arguments, `some m` the constructor taking one string. `exception_base` declares
both; the three socket classes declare only the `const std::string&` one;
`pcap_error` and `invalid_pcap_filter` declare only a `const char*` one, whose
argument is converted to `std::string` up to its first NUL; every other class of
the header has only the implicit default constructor, which runs
`exception_base()`. The result is `none` where no such constructor exists. -/
def construct : ExcType → Option String → Option Exception
  | std_exception, _ => none
  | std_runtime_error, none => none
  | std_runtime_error, some m => some ⟨std_runtime_error, m⟩
  | exception_base, none => some ⟨exception_base, ""⟩
  | exception_base, some m => some ⟨exception_base, m⟩
  | socket_open_error, none => none
  | socket_open_error, some m => some ⟨socket_open_error, m⟩
  | socket_close_error, none => none
  | socket_close_error, some m => some ⟨socket_close_error, m⟩
  | socket_write_error, none => none
  | socket_write_error, some m => some ⟨socket_write_error, m⟩
  | pcap_error, none => none
  | pcap_error, some m => some ⟨pcap_error, c_str m⟩
  | invalid_pcap_filter, none => none
  | invalid_pcap_filter, some m => some ⟨invalid_pcap_filter, c_str m⟩
  | t, none => some ⟨t, ""⟩
  | _, some _ => none

/-- The value of the virtual call `what()` on an exception object: the literal
of the class's override, or, for a class without override,
`std::runtime_error::what()`, a `const char*` into the stored message. -/
def what (e : Exception) : String :=
  match what_literal e.type with
  | some lit => lit
  | none => c_str e.message

/-- Whether the member `what` can be named on an expression of class `t` from
outside the class: the class declares its own public override, or the inherited
member is reached through public bases only (`std::exception` declares it). -/
def what_accessible (t : ExcType) : Bool :=
  (what_literal t).isSome || t == std_exception
    || (public_bases hierarchy_depth t).contains std_exception

/-- The expression `T(args).what()` as client code may write it: `none` when
`T` has no such constructor or when `what` is not accessible on `T`. -/
def construct_what (t : ExcType) (arg : Option String) : Option String :=
  match construct t arg with
  | some e => if what_accessible t then some (what e) else none
  | none => none

/-- The three malformed-input kinds of the error taxonomy. -/
def malformed_input_kinds : List ExcType :=
  [malformed_packet, malformed_option, invalid_domain_name]

/-- The four lookup-failure kinds of the error taxonomy. -/
def lookup_failure_kinds : List ExcType :=
  [option_not_found, pdu_not_found, stream_not_found, field_not_present]

/-- The 14 error kinds of the taxonomy, by the names the taxonomy uses for
them (all are declared directly in namespace `Tins`). -/
def taxonomy_names : List String :=
  ["malformed_packet", "malformed_option", "invalid_domain_name",
   "option_payload_too_large", "option_not_found", "pdu_not_found",
   "stream_not_found", "field_not_present", "bad_tins_cast",
   "serialization_error", "pdu_not_serializable", "callback_not_set",
   "protocol_disabled", "feature_disabled"]

/-- The class declared in the header under the name `nm` in namespace `Tins`,
if there is one. -/
def find_class (nm : String) : Option ExcType :=
  declared.find? (fun t => class_name t == "Tins::" ++ nm)

/-- The classes of the header that override `what()` with a fixed literal. -/
def literal_kinds : List ExcType :=
  declared.filter (fun t => (what_literal t).isSome)

/-! ## Option framework -/

/-- Modelled from the spec: the option record of the data model (no source
file of the option framework is present). A type identifier, a length in bytes
and the raw payload bytes. -/
structure PDUOption where
  option_type : Nat
  length : Nat
  payload : List Nat
  deriving DecidableEq, Repr

/-- Modelled from the spec: the part of a layer the option framework works
on (no source file of a layer is present): the width in bits of the length
field of the layer's options, and the ordered option sequence, in insertion
order, duplicates of a type identifier allowed. -/
structure OptionLayer where
  length_field_width : Nat
  options : List PDUOption
  deriving DecidableEq, Repr

/-- Modelled from the spec: the layer's maximum representable option length,
the largest value its length field can encode. -/
def max_option_length (l : OptionLayer) : Nat :=
  2 ^ l.length_field_width - 1

/-- Modelled from the spec: `add_option(type, payload)` of the option
framework (its source is not present). It appends to the ordered option
sequence and fails with `option_payload_too_large` if the payload length exceeds
what the layer's length field can encode. The result pairs the outcome of the
call with the layer as it is after the call. -/
def add_option (l : OptionLayer) (type : Nat) (payload : List Nat) :
    Except ExcType Unit × OptionLayer :=
  if max_option_length l < payload.length then
    (Except.error option_payload_too_large, l)
  else
    (Except.ok (), { l with options := l.options ++ [⟨type, payload.length, payload⟩] })

/-! ## PDU chain lookup -/

/-- Modelled from the spec: a protocol layer node of the data model (no
source file of the PDU stack is present): its protocol-type tag, header region
and trailer. The inner link is the position in the chain. -/
structure PDU where
  pdu_type : Nat
  header : List Nat
  trailer : List Nat
  deriving DecidableEq, Repr

/-- Modelled from the spec: the two directions in which a lookup may walk
the chain. -/
inductive WalkOrder
  | outer_to_inner
  | inner_to_outer
  deriving DecidableEq, Repr

/-- Modelled from the spec: the layers of a chain (given outermost first) in
the order a lookup visits them. -/
def walk : WalkOrder → List PDU → List PDU
  | WalkOrder.outer_to_inner, chain => chain
  | WalkOrder.inner_to_outer, chain => chain.reverse

/-- Modelled from the spec: the non-failing lookup of the PDU stack (its
source is not present). It walks the chain searching by protocol-type tag and
returns the first match, or an empty result. -/
def find_pdu (order : WalkOrder) (tag : Nat) (chain : List PDU) : Option PDU :=
  (walk order chain).find? (fun p => p.pdu_type == tag)

/-- Modelled from the spec: `rfind_pdu<T>()` of the PDU stack (its source is
not present). The same walk, failing with `pdu_not_found` when no layer of the
requested type exists in the chain. -/
def rfind_pdu (order : WalkOrder) (tag : Nat) (chain : List PDU) : Except ExcType PDU :=
  match find_pdu order tag chain with
  | some p => Except.ok p
  | none => Except.error pdu_not_found

/-! ## TCP half-stream reassembly -/

/-- The size of the 32-bit sequence space. -/
abbrev seq_space : Nat := 4294967296

/-- Half of the sequence space: the first difference that reads as negative. -/
abbrev seq_half : Nat := 2147483648

/-- Modelled from the spec: the signed difference `a - b` of two sequence
numbers, modular over the 32-bit sequence space (step 5 of the algorithm). -/
def seq_diff (a b : Nat) : Int :=
  let d := (a % seq_space + (seq_space - b % seq_space)) % seq_space
  if d < seq_half then (d : Int) else (d : Int) - (seq_space : Int)

/-- Modelled from the spec: a TCP segment as one half-stream sees it, and a
buffered fragment: starting sequence number and payload bytes. -/
structure Segment where
  seq : Nat
  payload : List Nat
  deriving DecidableEq, Repr

/-- Modelled from the spec: the data state of a half-stream (no source file
of the reassembly engine is present): the next expected sequence number, the
buffer of out-of-order fragments keyed by starting sequence number, and the
bytes handed to the delivery callback so far, in delivery order. -/
structure HalfStream where
  next_seq : Nat
  buffer : List Segment
  delivered : List Nat
  deriving DecidableEq, Repr

/-- Modelled from the spec: whether the byte position `pos` lies in the range
of a buffered fragment. -/
def covered (buffer : List Segment) (pos : Nat) : Bool :=
  buffer.any (fun f =>
    decide ((pos % seq_space + (seq_space - f.seq % seq_space)) % seq_space < f.payload.length))

/-- Modelled from the spec: trimming of a fragment that is about to be
buffered (step 3). Bytes at positions an already-buffered fragment covers are
dropped, so the earliest-arrived bytes win; what is left is returned as its
maximal runs, each a fragment keyed by its starting sequence number. -/
def trim (buffer : List Segment) : Nat → List Nat → List Segment
  | _, [] => []
  | s, b :: rest =>
    if covered buffer s then trim buffer ((s + 1) % seq_space) rest
    else
      match trim buffer ((s + 1) % seq_space) rest with
      | f :: fs =>
        if f.seq = (s + 1) % seq_space then ⟨s, b :: f.payload⟩ :: fs
        else ⟨s, [b]⟩ :: f :: fs
      | [] => [⟨s, [b]⟩]

/-- Modelled from the spec: the drain of step 2. While a buffered fragment
starts at the next expected sequence number it is delivered, removed from the
buffer, and the next expected number advances by its length. Every round removes
a fragment, so the buffer length is enough fuel. -/
def drain : Nat → HalfStream → HalfStream
  | 0, st => st
  | fuel + 1, st =>
    match st.buffer.find? (fun f => f.seq == st.next_seq) with
    | none => st
    | some f =>
      drain fuel
        { next_seq := (st.next_seq + f.payload.length) % seq_space
          buffer := st.buffer.filter (fun g => g.seq != st.next_seq)
          delivered := st.delivered ++ f.payload }

/-- Modelled from the spec: the per-segment algorithm of the reassembly
engine for one half-stream (section 4.3, steps 1 to 5; its source is not
present). A segment without payload contributes no bytes. A segment starting at
the next expected number is delivered and the buffer drained; one starting
after it is buffered, trimmed against the buffer; one lying entirely at or
before it is discarded. The specification gives no rule for a segment that
starts before the next expected number and ends after it: there the result is
`none`. -/
def process (st : HalfStream) (seg : Segment) : Option HalfStream :=
  if seg.payload.length = 0 then some st
  else
    let d := seq_diff seg.seq st.next_seq
    if d = 0 then
      some (drain st.buffer.length
        { next_seq := (st.next_seq + seg.payload.length) % seq_space
          buffer := st.buffer
          delivered := st.delivered ++ seg.payload })
    else if 0 < d then
      some { st with buffer := st.buffer ++ trim st.buffer (seg.seq % seq_space) seg.payload }
    else if d + (seg.payload.length : Int) ≤ 0 then some st
    else none

/-- Modelled from the spec: the segments of one direction fed to the engine
in arrival order. -/
def feed : HalfStream → List Segment → Option HalfStream
  | st, [] => some st
  | st, seg :: rest =>
    match process st seg with
    | some st1 => feed st1 rest
    | none => none

/-- The segments, in the order given, are non-empty and tile a contiguous
range of the sequence space that starts at `next`: each one starts where the
one before it ends. -/
def tiles : Nat → List Segment → Bool
  | _, [] => true
  | next, s :: rest =>
    s.seq == next && s.payload.length != 0
      && tiles ((next + s.payload.length) % seq_space) rest

/-- The number of payload bytes of a list of segments. -/
def total_length : List Segment → Nat
  | [] => 0
  | s :: rest => s.payload.length + total_length rest

/-- The payloads of a list of segments, concatenated in the order given. -/
def payload_bytes : List Segment → List Nat
  | [] => []
  | s :: rest => s.payload ++ payload_bytes rest

/-- The ten bytes `first, first + 1, ...` used as a sample payload. -/
def sample_payload (first : Nat) : List Nat :=
  (List.range 10).map (fun i => first + i)

/-! ## Predicates used to state and prove the reassembly property -/

/-- The state reached while the segments `segs`, which tile a range starting
at `n0`, arrive one by one (`A` holds of those that have arrived): a prefix
`before` of `segs` has arrived and been delivered after the bytes `d0`, the next
expected number is the start of the rest `after`, and the buffer holds
exactly the arrived segments of `after`. -/
def Draining (n0 : Nat) (d0 : List Nat) (segs : List Segment) (A : Segment → Prop)
    (st : HalfStream) : Prop :=
  ∃ before after, segs = before ++ after
    ∧ (∀ s ∈ before, A s)
    ∧ st.next_seq = (n0 + total_length before) % seq_space
    ∧ st.delivered = d0 ++ payload_bytes before
    ∧ (∀ f, f ∈ st.buffer ↔ f ∈ after ∧ A f)

/-- The state between two arrivals: as `Draining`, and the segment that starts
at the next expected number has not arrived. -/
def Settled (n0 : Nat) (d0 : List Nat) (segs : List Segment) (A : Segment → Prop)
    (st : HalfStream) : Prop :=
  ∃ before after, segs = before ++ after
    ∧ (∀ s ∈ before, A s)
    ∧ st.next_seq = (n0 + total_length before) % seq_space
    ∧ st.delivered = d0 ++ payload_bytes before
    ∧ (∀ f, f ∈ st.buffer ↔ f ∈ after ∧ A f)
    ∧ (∀ h t, after = h :: t → ¬ A h)

/-- A payload as long as half the sequence space, all bytes zero. -/
def half_space_payload : List Nat := List.replicate seq_half 0

/-! ## Exception hierarchy: theorems -/

/-- Three class heads are enough fuel: the chain of bases of every class ends
at `std::exception`, which has no base. -/
theorem bases_fuel_enough (t : ExcType) :
    bases hierarchy_depth t = bases (hierarchy_depth + 1) t := by
  cases t <;> rfl

/-- A string without NUL is its own C string. -/
theorem c_str_of_no_nul (m : String) (h : NUL ∉ m.data) : c_str m = m := by
  have h1 : m.data.takeWhile (fun c => c != NUL) = m.data := by
    rw [List.takeWhile_eq_self_iff]
    intro c hc
    have : c ≠ NUL := fun e => h (e ▸ hc)
    simpa using this
  unfold c_str
  rw [h1]

/-- The C string of a C string is itself. -/
theorem c_str_idem (m : String) : c_str (c_str m) = c_str m := by
  apply c_str_of_no_nul
  intro h
  have := List.mem_takeWhile_imp h
  simp at this

/-- C1: a handler for `exception_base` does not catch `socket_close_error`.
The class is derived from `exception_base`, but through a private base, so the
handler does not match; it is the only class declared in the header that the
handler misses. -/
theorem socket_close_error_escapes_exception_base_handler :
    handler_catches exception_base socket_close_error = false
    ∧ direct_base socket_close_error = some (exception_base, Access.priv)
    ∧ derives_from socket_close_error exception_base = true
    ∧ declared.filter (fun t => !handler_catches exception_base t) = [socket_close_error]
    ∧ direct_base socket_open_error = some (exception_base, Access.pub)
    ∧ direct_base socket_write_error = some (exception_base, Access.pub) := by
  decide

/-- C2: every lookup-failure kind `L` and every malformed-input kind `M` are
different classes, neither is derived from the other, a handler for one never
catches the other, and their `what()` strings differ whatever the objects. -/
theorem lookup_failure_distinct_from_malformed_input (L M : ExcType)
    (hL : L ∈ lookup_failure_kinds) (hM : M ∈ malformed_input_kinds) :
    L ≠ M
    ∧ derives_from L M = false ∧ derives_from M L = false
    ∧ handler_catches M L = false ∧ handler_catches L M = false
    ∧ ∀ mL mM : String, what ⟨L, mL⟩ ≠ what ⟨M, mM⟩ := by
  simp only [lookup_failure_kinds, malformed_input_kinds, List.mem_cons,
    List.mem_singleton, List.not_mem_nil, or_false] at hL hM
  rcases hL with rfl | rfl | rfl | rfl <;> rcases hM with rfl | rfl | rfl <;>
    exact ⟨by decide, by decide, by decide, by decide, by decide,
      fun _ _ => by simp only [what, what_literal]; decide⟩

/-- Witness of C2 at `pdu_not_found` and `malformed_packet`. -/
theorem lookup_failure_distinct_from_malformed_input_witness :
    pdu_not_found ∈ lookup_failure_kinds ∧ malformed_packet ∈ malformed_input_kinds
    ∧ pdu_not_found ≠ malformed_packet
    ∧ derives_from pdu_not_found malformed_packet = false
    ∧ derives_from malformed_packet pdu_not_found = false
    ∧ handler_catches malformed_packet pdu_not_found = false
    ∧ handler_catches pdu_not_found malformed_packet = false
    ∧ ∀ mL mM : String, what ⟨pdu_not_found, mL⟩ ≠ what ⟨malformed_packet, mM⟩ :=
  ⟨by decide, by decide,
    lookup_failure_distinct_from_malformed_input pdu_not_found malformed_packet
      (by decide) (by decide)⟩

/-- C3: each of the 14 names of the error taxonomy is the name of a class
declared in the header whose direct base is `exception_base` (a public base),
and the 14 classes are pairwise distinct. -/
theorem taxonomy_kinds_declared_with_base_exception_base :
    taxonomy_names.length = 14
    ∧ (∀ nm ∈ taxonomy_names, ∃ t, find_class nm = some t ∧ t ∈ declared
        ∧ class_name t = "Tins::" ++ nm
        ∧ direct_base t = some (exception_base, Access.pub))
    ∧ (taxonomy_names.filterMap find_class).length = 14
    ∧ (taxonomy_names.filterMap find_class).Nodup := by
  refine ⟨by decide, ?_, by decide, by decide⟩
  intro nm h
  simp only [taxonomy_names, List.mem_cons, List.mem_singleton, List.not_mem_nil,
    or_false] at h
  rcases h with rfl | rfl | rfl | rfl | rfl | rfl | rfl | rfl | rfl | rfl | rfl | rfl | rfl | rfl
  · exact ⟨malformed_packet, by decide, by decide, by decide, by decide⟩
  · exact ⟨malformed_option, by decide, by decide, by decide, by decide⟩
  · exact ⟨invalid_domain_name, by decide, by decide, by decide, by decide⟩
  · exact ⟨option_payload_too_large, by decide, by decide, by decide, by decide⟩
  · exact ⟨option_not_found, by decide, by decide, by decide, by decide⟩
  · exact ⟨pdu_not_found, by decide, by decide, by decide, by decide⟩
  · exact ⟨stream_not_found, by decide, by decide, by decide, by decide⟩
  · exact ⟨field_not_present, by decide, by decide, by decide, by decide⟩
  · exact ⟨bad_tins_cast, by decide, by decide, by decide, by decide⟩
  · exact ⟨serialization_error, by decide, by decide, by decide, by decide⟩
  · exact ⟨pdu_not_serializable, by decide, by decide, by decide, by decide⟩
  · exact ⟨callback_not_set, by decide, by decide, by decide, by decide⟩
  · exact ⟨protocol_disabled, by decide, by decide, by decide, by decide⟩
  · exact ⟨feature_disabled, by decide, by decide, by decide, by decide⟩

/-- Witness of C3 at the name `bad_tins_cast`. -/
theorem taxonomy_kinds_declared_with_base_exception_base_witness :
    "bad_tins_cast" ∈ taxonomy_names
    ∧ ∃ t, find_class "bad_tins_cast" = some t ∧ t ∈ declared
        ∧ class_name t = "Tins::" ++ "bad_tins_cast"
        ∧ direct_base t = some (exception_base, Access.pub) :=
  ⟨by decide,
    taxonomy_kinds_declared_with_base_exception_base.2.1 "bad_tins_cast" (by decide)⟩

/-- The classes whose constructor stores the caller's message and that do
not override `what()`, `socket_close_error` apart. -/
theorem what_of_message_classes (m : String) :
    construct_what exception_base (some m) = some (c_str m)
    ∧ construct_what socket_open_error (some m) = some (c_str m)
    ∧ construct_what socket_write_error (some m) = some (c_str m)
    ∧ construct_what pcap_error (some m) = some (c_str m)
    ∧ construct_what invalid_pcap_filter (some m) = some (c_str m) := by
  refine ⟨rfl, rfl, rfl, ?_, ?_⟩
  · show some (c_str (c_str m)) = some (c_str m)
    rw [c_str_idem]
  · show some (c_str (c_str m)) = some (c_str m)
    rw [c_str_idem]

/-- The value of `what()` on a `socket_close_error` object, as a member or a
friend of the class could read it. -/
theorem what_of_socket_close_error_object (m : String) :
    what ⟨socket_close_error, m⟩ = c_str m := rfl

/-- C7, as stated, fails: `what()` is a `const char*`, so a message with an
embedded NUL comes back cut at the NUL (`"a\0b"` comes back as `"a"`); and on a
`socket_close_error` the member `what` is not accessible, the base being
private. -/
theorem what_round_trip_counterexample :
    construct_what exception_base (some (String.mk ['a', NUL, 'b'])) = some "a"
    ∧ construct_what exception_base (some (String.mk ['a', NUL, 'b']))
        ≠ some (String.mk ['a', NUL, 'b'])
    ∧ construct_what socket_close_error (some "x") = none
    ∧ construct_what socket_close_error (some "x") ≠ some "x" := by
  decide

/-- C7, amended: for every string `m`, `what()` of `exception_base(m)`,
`socket_open_error(m)`, `socket_write_error(m)`, `pcap_error(m)` and
`invalid_pcap_filter(m)` is `m` up to its first NUL, so that it equals `m` for
every `m` without an embedded NUL; a default-constructed `exception_base` has
`what()` equal to the empty string. -/
theorem what_round_trip (m : String) :
    (construct_what exception_base (some m) = some (c_str m)
      ∧ construct_what socket_open_error (some m) = some (c_str m)
      ∧ construct_what socket_write_error (some m) = some (c_str m)
      ∧ construct_what pcap_error (some m) = some (c_str m)
      ∧ construct_what invalid_pcap_filter (some m) = some (c_str m))
    ∧ (NUL ∉ m.data →
        construct_what exception_base (some m) = some m
        ∧ construct_what socket_open_error (some m) = some m
        ∧ construct_what socket_write_error (some m) = some m
        ∧ construct_what pcap_error (some m) = some m
        ∧ construct_what invalid_pcap_filter (some m) = some m)
    ∧ construct_what exception_base none = some "" := by
  refine ⟨what_of_message_classes m, fun h => ?_, by decide⟩
  have k := what_of_message_classes m
  rw [c_str_of_no_nul m h] at k
  exact k

/-- Witness of the amended C7 at the message `"socket closed"`. -/
theorem what_round_trip_witness :
    NUL ∉ "socket closed".data
    ∧ construct_what exception_base (some "socket closed") = some "socket closed"
    ∧ construct_what socket_open_error (some "socket closed") = some "socket closed"
    ∧ construct_what socket_write_error (some "socket closed") = some "socket closed"
    ∧ construct_what pcap_error (some "socket closed") = some "socket closed"
    ∧ construct_what invalid_pcap_filter (some "socket closed") = some "socket closed" :=
  ⟨by decide, (what_round_trip "socket closed").2.1 (by decide)⟩

/-- C8: the 22 classes that override `what()` with a fixed literal are the
ones listed; on them the map from class to `what()` string is injective and
every string is non-empty, so two such exceptions with equal `what()` are of the
same class. -/
theorem what_literal_identifies_kind :
    literal_kinds =
      [option_not_found, malformed_packet, serialization_error, pdu_not_found,
       invalid_interface, invalid_address, field_not_present, invalid_socket_type,
       unknown_link_type, malformed_option, bad_tins_cast, protocol_disabled,
       feature_disabled, option_payload_too_large, pdu_not_serializable,
       pcap_open_failed, unsupported_function, invalid_domain_name,
       stream_not_found, callback_not_set, invalid_packet, invalid_handshake]
    ∧ literal_kinds.length = 22
    ∧ (∀ a ∈ literal_kinds, ∀ b ∈ literal_kinds, what_literal a = what_literal b → a = b)
    ∧ (∀ a ∈ literal_kinds, ∀ m : String, what ⟨a, m⟩ ≠ "" ∧ what_literal a = some (what ⟨a, m⟩))
    ∧ (∀ e1 e2 : Exception, e1.type ∈ literal_kinds → e2.type ∈ literal_kinds →
        what e1 = what e2 → e1.type = e2.type) := by
  have inj : ∀ a ∈ literal_kinds, ∀ b ∈ literal_kinds,
      what_literal a = what_literal b → a = b := by decide
  have lit : ∀ a ∈ literal_kinds, ∃ s, what_literal a = some s ∧ s ≠ "" := by
    intro a ha
    have h1 : ∀ a ∈ literal_kinds, (what_literal a).isSome = true
        ∧ what_literal a ≠ some "" := by decide
    obtain ⟨h2, h3⟩ := h1 a ha
    obtain ⟨s, hs⟩ := Option.isSome_iff_exists.mp h2
    exact ⟨s, hs, fun e => h3 (e ▸ hs)⟩
  refine ⟨by decide, by decide, inj, ?_, ?_⟩
  · intro a ha m
    obtain ⟨s, hs, hne⟩ := lit a ha
    simp only [what, hs]
    exact ⟨hne, trivial⟩
  · intro e1 e2 h1 h2 h
    obtain ⟨s1, hs1, _⟩ := lit e1.type h1
    obtain ⟨s2, hs2, _⟩ := lit e2.type h2
    simp only [what, hs1, hs2] at h
    exact inj _ h1 _ h2 (by rw [hs1, hs2, h])

/-- Witness of C8 at two `pdu_not_found` objects built with different messages. -/
theorem what_literal_identifies_kind_witness :
    (⟨pdu_not_found, ""⟩ : Exception).type ∈ literal_kinds
    ∧ (⟨pdu_not_found, "x"⟩ : Exception).type ∈ literal_kinds
    ∧ what ⟨pdu_not_found, ""⟩ = what ⟨pdu_not_found, "x"⟩
    ∧ (⟨pdu_not_found, ""⟩ : Exception).type = (⟨pdu_not_found, "x"⟩ : Exception).type :=
  ⟨by decide, by decide, by decide,
    what_literal_identifies_kind.2.2.2.2 ⟨pdu_not_found, ""⟩ ⟨pdu_not_found, "x"⟩
      (by decide) (by decide) (by decide)⟩

/-! ## Option framework and PDU lookup: theorems -/

/-- C4: for every layer and every payload longer than the layer's maximum
representable option length, `add_option` fails with
`option_payload_too_large` and the layer, its option sequence included, is
after the call what it was before. -/
theorem add_option_too_large_leaves_options (l : OptionLayer) (type : Nat)
    (payload : List Nat) (h : max_option_length l < payload.length) :
    (add_option l type payload).1 = Except.error option_payload_too_large
    ∧ (add_option l type payload).2 = l
    ∧ (add_option l type payload).2.options = l.options := by
  simp [add_option, h]

/-- Witness of C4: a four-bit length field and a payload of 16 bytes, on a
layer that holds one option already. -/
theorem add_option_too_large_leaves_options_witness :
    max_option_length ⟨4, [⟨1, 2, [7, 7]⟩]⟩ < (List.replicate 16 0).length
    ∧ (add_option ⟨4, [⟨1, 2, [7, 7]⟩]⟩ 3 (List.replicate 16 0)).1
        = Except.error option_payload_too_large
    ∧ (add_option ⟨4, [⟨1, 2, [7, 7]⟩]⟩ 3 (List.replicate 16 0)).2 = ⟨4, [⟨1, 2, [7, 7]⟩]⟩
    ∧ (add_option ⟨4, [⟨1, 2, [7, 7]⟩]⟩ 3 (List.replicate 16 0)).2.options
        = [⟨1, 2, [7, 7]⟩] :=
  ⟨by decide,
    add_option_too_large_leaves_options ⟨4, [⟨1, 2, [7, 7]⟩]⟩ 3 (List.replicate 16 0)
      (by decide)⟩

/-- A payload the length field can encode is appended at the end of the
option sequence, with its length recorded. -/
theorem add_option_fits_appends (l : OptionLayer) (type : Nat) (payload : List Nat)
    (h : payload.length ≤ max_option_length l) :
    add_option l type payload
      = (Except.ok (), { l with options := l.options ++ [⟨type, payload.length, payload⟩] }) := by
  simp [add_option, Nat.not_lt.mpr h]

/-- C5: for every chain, walk order and protocol type tag: if no layer has the
tag, `rfind_pdu` fails with `pdu_not_found` and the non-failing variant
returns an empty result; if some layer has the tag, `rfind_pdu` does not fail
and returns the first layer with that tag in walk order, as does the
non-failing variant. -/
theorem rfind_pdu_spec (order : WalkOrder) (tag : Nat) (chain : List PDU) :
    ((∀ p ∈ chain, p.pdu_type ≠ tag) →
      rfind_pdu order tag chain = Except.error pdu_not_found
      ∧ find_pdu order tag chain = none)
    ∧ ((∃ p ∈ chain, p.pdu_type = tag) →
      ∃ before p after, walk order chain = before ++ p :: after
        ∧ p.pdu_type = tag ∧ (∀ q ∈ before, q.pdu_type ≠ tag)
        ∧ rfind_pdu order tag chain = Except.ok p
        ∧ find_pdu order tag chain = some p) := by
  have mem_walk : ∀ p, p ∈ walk order chain ↔ p ∈ chain := by
    intro p
    cases order <;> simp [walk]
  constructor
  · intro h
    have hnone : find_pdu order tag chain = none := by
      unfold find_pdu
      rw [List.find?_eq_none]
      intro p hp
      have := h p ((mem_walk p).mp hp)
      simpa using this
    simp [rfind_pdu, hnone]
  · rintro ⟨p0, hp0, ht0⟩
    cases hf : find_pdu order tag chain with
    | none =>
      exfalso
      unfold find_pdu at hf
      rw [List.find?_eq_none] at hf
      have := hf p0 ((mem_walk p0).mpr hp0)
      simp [ht0] at this
    | some p =>
      have hf2 := hf
      unfold find_pdu at hf2
      rw [List.find?_eq_some] at hf2
      obtain ⟨hp, before, after, hw, hb⟩ := hf2
      refine ⟨before, p, after, hw, by simpa using hp, ?_, by simp [rfind_pdu, hf], rfl⟩
      intro q hq
      have := hb q hq
      simpa using this

/-- Witness of C5 on a three-layer chain searched for its middle layer. -/
theorem rfind_pdu_spec_witness :
    (∃ p ∈ [(⟨1, [], []⟩ : PDU), ⟨2, [5], []⟩, ⟨3, [], []⟩], p.pdu_type = 2)
    ∧ ∃ before p after,
        walk WalkOrder.outer_to_inner [(⟨1, [], []⟩ : PDU), ⟨2, [5], []⟩, ⟨3, [], []⟩]
          = before ++ p :: after
        ∧ p.pdu_type = 2 ∧ (∀ q ∈ before, q.pdu_type ≠ 2)
        ∧ rfind_pdu WalkOrder.outer_to_inner 2 [(⟨1, [], []⟩ : PDU), ⟨2, [5], []⟩, ⟨3, [], []⟩]
            = Except.ok p
        ∧ find_pdu WalkOrder.outer_to_inner 2 [(⟨1, [], []⟩ : PDU), ⟨2, [5], []⟩, ⟨3, [], []⟩]
            = some p :=
  ⟨⟨⟨2, [5], []⟩, by decide, rfl⟩,
    (rfind_pdu_spec WalkOrder.outer_to_inner 2
      [(⟨1, [], []⟩ : PDU), ⟨2, [5], []⟩, ⟨3, [], []⟩]).2 ⟨⟨2, [5], []⟩, by decide, rfl⟩⟩

/-! ## Stream reassembly: theorems -/

/-- The byte count of a concatenation is the sum of the byte counts. -/
theorem total_length_append (l1 l2 : List Segment) :
    total_length (l1 ++ l2) = total_length l1 + total_length l2 := by
  induction l1 with
  | nil => simp [total_length]
  | cons s r ih => simp [total_length, ih, Nat.add_assoc]

/-- The payloads of a concatenation are the payloads of its parts, in order. -/
theorem payload_bytes_append (l1 l2 : List Segment) :
    payload_bytes (l1 ++ l2) = payload_bytes l1 ++ payload_bytes l2 := by
  induction l1 with
  | nil => simp [payload_bytes]
  | cons s r ih => simp [payload_bytes, ih]

/-- What it is for a non-empty list of segments to tile a range. -/
theorem tiles_cons (n : Nat) (s : Segment) (r : List Segment) :
    tiles n (s :: r) = true ↔
      s.seq = n ∧ 0 < s.payload.length
        ∧ tiles ((n + s.payload.length) % seq_space) r = true := by
  simp [tiles, Nat.pos_iff_ne_zero, and_assoc]

/-- The signed difference from a sequence number to one less than half the
sequence space ahead of it is the distance between them. -/
theorem seq_diff_ahead (n o : Nat) (ho : o < seq_half) :
    seq_diff ((n + o) % seq_space) n = (o : Int) := by
  simp only [seq_diff, seq_space, seq_half] at *
  split_ifs with h <;> omega

/-- A member of a tiling starts at an offset from the start of the tiling and
ends within its total length. -/
theorem tiles_member (l : List Segment) : ∀ (n : Nat) (f : Segment),
    n < seq_space → tiles n l = true → f ∈ l →
    ∃ o, f.seq = (n + o) % seq_space ∧ o + f.payload.length ≤ total_length l
      ∧ 0 < f.payload.length := by
  induction l with
  | nil => intro n f _ _ hf; cases hf
  | cons h t ih =>
    intro n f hn ht hf
    rw [tiles_cons] at ht
    obtain ⟨hseq, hlen, htl⟩ := ht
    rcases List.mem_cons.mp hf with rfl | hft
    · exact ⟨0, by rw [hseq]; simp only [seq_space] at *; omega,
        by simp [total_length], hlen⟩
    · obtain ⟨o, ho1, ho2, ho3⟩ := ih ((n + h.payload.length) % seq_space) f
        (Nat.mod_lt _ (by decide)) htl hft
      refine ⟨h.payload.length + o, ?_, ?_, ho3⟩
      · rw [ho1]; simp only [seq_space] at *; omega
      · simp only [total_length]; omega

/-- A member of the tail of a tiling starts at or after the end of the head. -/
theorem tiles_tail_member (n : Nat) (h f : Segment) (t : List Segment)
    (ht : tiles n (h :: t) = true) (hf : f ∈ t) :
    ∃ o, f.seq = (n + o) % seq_space ∧ h.payload.length ≤ o
      ∧ o + f.payload.length ≤ total_length (h :: t)
      ∧ 0 < f.payload.length ∧ 0 < h.payload.length ∧ h.seq = n := by
  rw [tiles_cons] at ht
  obtain ⟨hseq, hlen, htl⟩ := ht
  obtain ⟨o, ho1, ho2, ho3⟩ := tiles_member t ((n + h.payload.length) % seq_space) f
    (Nat.mod_lt _ (by decide)) htl hf
  refine ⟨h.payload.length + o, ?_, by omega, ?_, ho3, hlen, hseq⟩
  · rw [ho1]; simp only [seq_space] at *; omega
  · simp only [total_length]; omega

/-- Two different members of a tiling occupy disjoint ranges of offsets. -/
theorem tiles_two_members (l : List Segment) : ∀ (n : Nat) (f g : Segment),
    n < seq_space → tiles n l = true → f ∈ l → g ∈ l → f ≠ g →
    ∃ a b, f.seq = (n + a) % seq_space ∧ g.seq = (n + b) % seq_space
      ∧ a + f.payload.length ≤ total_length l ∧ b + g.payload.length ≤ total_length l
      ∧ 0 < f.payload.length ∧ 0 < g.payload.length
      ∧ (a + f.payload.length ≤ b ∨ b + g.payload.length ≤ a) := by
  induction l with
  | nil => intro n f g _ _ hf; cases hf
  | cons h t ih =>
    intro n f g hn ht hf hg hne
    have ht2 := ht
    rw [tiles_cons] at ht2
    obtain ⟨hseq, hlen, htl⟩ := ht2
    rcases List.mem_cons.mp hf with rfl | hft <;> rcases List.mem_cons.mp hg with rfl | hgt
    · exact absurd rfl hne
    · obtain ⟨b, hb1, hb2, hb3, hb4, _, _⟩ := tiles_tail_member n f g t ht hgt
      exact ⟨0, b, by rw [hseq]; simp only [seq_space] at *; omega, hb1,
        by simp only [total_length]; omega, hb3, hlen, hb4, Or.inl (by omega)⟩
    · obtain ⟨a, ha1, ha2, ha3, ha4, _, _⟩ := tiles_tail_member n g f t ht hft
      exact ⟨a, 0, ha1, by rw [hseq]; simp only [seq_space] at *; omega, ha3,
        by simp only [total_length]; omega, ha4, hlen, Or.inr (by omega)⟩
    · obtain ⟨a, b, h1, h2, h3, h4, h5, h6, h7⟩ :=
        ih ((n + h.payload.length) % seq_space) f g (Nat.mod_lt _ (by decide)) htl hft hgt hne
      refine ⟨h.payload.length + a, h.payload.length + b, ?_, ?_, ?_, ?_, h5, h6, ?_⟩
      · rw [h1]; simp only [seq_space] at *; omega
      · rw [h2]; simp only [seq_space] at *; omega
      · simp only [total_length]; omega
      · simp only [total_length]; omega
      · omega

/-- In a tiling shorter than the sequence space no member of the tail starts
where the head starts. -/
theorem tiles_head_seq_ne (n : Nat) (h f : Segment) (t : List Segment)
    (ht : tiles n (h :: t) = true)
    (hT : total_length (h :: t) < seq_space) (hf : f ∈ t) : f.seq ≠ h.seq := by
  obtain ⟨o, ho1, ho2, ho3, ho4, ho5, ho6⟩ := tiles_tail_member n h f t ht hf
  rw [ho1, ho6]
  simp only [seq_space] at *
  omega

/-- The segments of a tiling shorter than the sequence space are pairwise
different. -/
theorem tiles_nodup (l : List Segment) : ∀ (n : Nat),
    n < seq_space → tiles n l = true → total_length l < seq_space → l.Nodup := by
  induction l with
  | nil => intro _ _ _ _; exact List.nodup_nil
  | cons h t ih =>
    intro n hn ht hT
    have ht2 := ht
    rw [tiles_cons] at ht2
    obtain ⟨_, _, htl⟩ := ht2
    refine List.nodup_cons.mpr ⟨fun hmem => ?_, ?_⟩
    · exact tiles_head_seq_ne n h h t ht hT hmem rfl
    · exact ih _ (Nat.mod_lt _ (by decide)) htl (by simp only [total_length] at hT; omega)

/-- A tiling splits into a tiling of its front and a tiling of its back. -/
theorem tiles_append (l1 : List Segment) : ∀ (n : Nat) (l2 : List Segment),
    n < seq_space → tiles n (l1 ++ l2) = true →
    tiles ((n + total_length l1) % seq_space) l2 = true := by
  induction l1 with
  | nil =>
    intro n l2 hn h
    have : (n + total_length []) % seq_space = n := by
      simp only [total_length, seq_space] at *; omega
    rw [this]; exact h
  | cons s r ih =>
    intro n l2 hn h
    rw [List.cons_append, tiles_cons] at h
    obtain ⟨_, _, htl⟩ := h
    have := ih _ l2 (Nat.mod_lt _ (by decide)) htl
    have e : ((n + s.payload.length) % seq_space + total_length r) % seq_space
        = (n + total_length (s :: r)) % seq_space := by
      simp only [total_length, seq_space] at *; omega
    rw [e] at this
    exact this

/-- A fragment none of whose positions is covered by the buffer is buffered
whole. -/
theorem trim_uncovered (buffer : List Segment) : ∀ (p : List Nat) (s : Nat),
    s < seq_space → p ≠ [] →
    (∀ i, i < p.length → covered buffer ((s + i) % seq_space) = false) →
    trim buffer s p = [⟨s, p⟩] := by
  intro p
  induction p with
  | nil => intro s _ h; exact absurd rfl h
  | cons b rest ih =>
    intro s hs _ hcov
    have h0 : covered buffer s = false := by
      have := hcov 0 (by simp)
      rwa [Nat.add_zero, Nat.mod_eq_of_lt hs] at this
    by_cases hr : rest = []
    · subst hr
      simp [trim, h0]
    · have hrec := ih ((s + 1) % seq_space) (Nat.mod_lt _ (by decide)) hr (by
        intro i hi
        have := hcov (i + 1) (by simpa using hi)
        have e : ((s + 1) % seq_space + i) % seq_space = (s + (i + 1)) % seq_space := by
          simp only [seq_space]; omega
        rw [e]; exact this)
      simp [trim, h0, hrec]

/-- The drain delivers the buffered segments that continue the delivered
prefix and stops at the first one that has not arrived; the buffer length is
enough fuel for it. -/
theorem drain_settles (n0 : Nat) (d0 : List Nat) (segs : List Segment)
    (A : Segment → Prop) (hn0 : n0 < seq_space) (ht : tiles n0 segs = true)
    (hT : total_length segs < seq_space) :
    ∀ (fuel : Nat) (st : HalfStream), Draining n0 d0 segs A st →
      st.buffer.length ≤ fuel → Settled n0 d0 segs A (drain fuel st) := by
  intro fuel
  induction fuel with
  | zero =>
    intro st hd hlen
    obtain ⟨before, after, hsplit, hbef, hnext, hdel, hbuf⟩ := hd
    have hnil : st.buffer = [] := List.length_eq_zero.mp (Nat.le_zero.mp hlen)
    refine ⟨before, after, hsplit, hbef, hnext, hdel, hbuf, ?_⟩
    intro h t hafter hA
    have : h ∈ st.buffer := (hbuf h).mpr ⟨by rw [hafter]; exact List.mem_cons_self _ _, hA⟩
    rw [hnil] at this
    cases this
  | succ fuel ih =>
    intro st hd hlen
    obtain ⟨before, after, hsplit, hbef, hnext, hdel, hbuf⟩ := hd
    have htile : tiles st.next_seq after = true := by
      rw [hnext]; exact tiles_append before n0 after hn0 (hsplit ▸ ht)
    have hTa : total_length after < seq_space := by
      rw [hsplit, total_length_append] at hT; omega
    simp only [drain]
    cases hfind : st.buffer.find? (fun f => f.seq == st.next_seq) with
    | none =>
      simp only []
      refine ⟨before, after, hsplit, hbef, hnext, hdel, hbuf, ?_⟩
      intro h t hafter hA
      have hmem : h ∈ st.buffer :=
        (hbuf h).mpr ⟨by rw [hafter]; exact List.mem_cons_self _ _, hA⟩
      rw [hafter, tiles_cons] at htile
      have := List.find?_eq_none.mp hfind h hmem
      simp [htile.1] at this
    | some f =>
      simp only []
      have hfseq : f.seq = st.next_seq := by
        have := List.find?_some hfind
        simpa using this
      have hfmem : f ∈ st.buffer := List.mem_of_find?_eq_some hfind
      obtain ⟨hfa, hfA⟩ := (hbuf f).mp hfmem
      cases hafter : after with
      | nil => rw [hafter] at hfa; cases hfa
      | cons h t =>
        rw [hafter] at htile hfa hTa hsplit
        have hhseq : h.seq = st.next_seq := ((tiles_cons _ _ _).mp htile).1
        have hfh : f = h := by
          rcases List.mem_cons.mp hfa with e | hft
          · exact e
          · exact absurd (hfseq.trans hhseq.symm)
              (tiles_head_seq_ne st.next_seq h f t htile hTa hft)
        subst hfh
        apply ih
        · refine ⟨before ++ [f], t, by rw [hsplit]; simp, ?_, ?_, ?_, ?_⟩
          · intro s hs
            rcases List.mem_append.mp hs with h1 | h1
            · exact hbef s h1
            · rw [List.mem_singleton.mp h1]; exact hfA
          · show (st.next_seq + f.payload.length) % seq_space = _
            rw [hnext, total_length_append]
            simp only [total_length, seq_space]; omega
          · show st.delivered ++ f.payload = _
            rw [hdel, payload_bytes_append]
            simp [payload_bytes]
          · intro g
            show g ∈ st.buffer.filter (fun g => g.seq != st.next_seq) ↔ _
            rw [List.mem_filter, hbuf g, hafter]
            constructor
            · rintro ⟨⟨hg, hgA⟩, hne⟩
              rcases List.mem_cons.mp hg with e | hgt
              · rw [e, hfseq] at hne; simp at hne
              · exact ⟨hgt, hgA⟩
            · rintro ⟨hgt, hgA⟩
              refine ⟨⟨List.mem_cons_of_mem _ hgt, hgA⟩, ?_⟩
              have := tiles_head_seq_ne st.next_seq f g t htile hTa hgt
              rw [hfseq] at this
              simpa using this
        · show (st.buffer.filter (fun g => g.seq != st.next_seq)).length ≤ fuel
          have : (st.buffer.filter (fun g => g.seq != st.next_seq)).length
              < st.buffer.length :=
            List.length_filter_lt_length_iff_exists.mpr ⟨f, hfmem, by simp [hfseq]⟩
          omega

/-- A position of a segment of a tiling of at most half the sequence space is
outside the range of every other segment of the tiling. -/
theorem tiles_position_not_covered (n : Nat) (l : List Segment) (f g : Segment) (i : Nat)
    (hn : n < seq_space) (ht : tiles n l = true) (hT : total_length l ≤ seq_half)
    (hf : f ∈ l) (hg : g ∈ l) (hne : g ≠ f) (hi : i < f.payload.length) :
    ¬ (((f.seq % seq_space + i) % seq_space % seq_space
        + (seq_space - g.seq % seq_space)) % seq_space < g.payload.length) := by
  obtain ⟨a, b, h1, h2, h3, h4, h5, h6, h7⟩ := tiles_two_members l n f g hn ht hf hg (Ne.symm hne)
  rw [h1, h2]
  simp only [seq_space, seq_half] at *
  omega

/-- One arrival: a segment of the tiling that has not arrived before is
accepted, and the state is settled again with that segment counted as
arrived. -/
theorem process_settled (n0 : Nat) (d0 : List Nat) (segs : List Segment)
    (A : Segment → Prop) (hn0 : n0 < seq_space) (ht : tiles n0 segs = true)
    (hT : total_length segs ≤ seq_half) (st : HalfStream) (seg : Segment)
    (hst : Settled n0 d0 segs A st) (hmem : seg ∈ segs) (hnew : ¬ A seg) :
    ∃ st1, process st seg = some st1
      ∧ Settled n0 d0 segs (fun s => A s ∨ s = seg) st1 := by
  obtain ⟨before, after, hsplit, hbef, hnext, hdel, hbuf, hhead⟩ := hst
  have hTs : total_length segs < seq_space := by simp only [seq_space, seq_half] at *; omega
  have hpost : seg ∈ after := by
    rw [hsplit] at hmem
    rcases List.mem_append.mp hmem with h1 | h1
    · exact absurd (hbef seg h1) hnew
    · exact h1
  have htile : tiles st.next_seq after = true := by
    rw [hnext]; exact tiles_append before n0 after hn0 (hsplit ▸ ht)
  have hnx : st.next_seq < seq_space := by rw [hnext]; exact Nat.mod_lt _ (by decide)
  have hTa : total_length after ≤ seq_half := by
    rw [hsplit, total_length_append] at hT; omega
  cases hafter : after with
  | nil => rw [hafter] at hpost; cases hpost
  | cons h t =>
    rw [hafter] at htile hpost hTa hsplit
    have hTa2 : total_length (h :: t) < seq_space := by
      simp only [seq_space, seq_half] at *; omega
    obtain ⟨hhseq, hhlen, _⟩ := (tiles_cons _ _ _).mp htile
    have hnAh : ¬ A h := hhead h t hafter
    by_cases hsh : seg = h
    · -- the segment that starts at the next expected number
      subst hsh
      have hd : seq_diff seg.seq st.next_seq = 0 := by
        have := seq_diff_ahead st.next_seq 0 (by decide)
        rw [hhseq]
        simpa [Nat.mod_eq_of_lt hnx] using this
      have hlen0 : ¬ seg.payload.length = 0 := by omega
      have hp : process st seg = some (drain st.buffer.length
          { next_seq := (st.next_seq + seg.payload.length) % seq_space
            buffer := st.buffer
            delivered := st.delivered ++ seg.payload }) := by
        simp only [process, hlen0, hd, if_true, if_false]
      refine ⟨_, hp, ?_⟩
      apply drain_settles n0 d0 segs _ hn0 ht hTs
      · refine ⟨before ++ [seg], t, by rw [hsplit]; simp, ?_, ?_, ?_, ?_⟩
        · intro s hs
          rcases List.mem_append.mp hs with h1 | h1
          · exact Or.inl (hbef s h1)
          · exact Or.inr (List.mem_singleton.mp h1)
        · show (st.next_seq + seg.payload.length) % seq_space = _
          rw [hnext, total_length_append]
          simp only [total_length, seq_space]; omega
        · show st.delivered ++ seg.payload = _
          rw [hdel, payload_bytes_append]
          simp [payload_bytes]
        · intro g
          show g ∈ st.buffer ↔ _
          rw [hbuf g, hafter]
          constructor
          · rintro ⟨hg, hgA⟩
            rcases List.mem_cons.mp hg with e | hgt
            · rw [e] at hgA; exact absurd hgA hnew
            · exact ⟨hgt, Or.inl hgA⟩
          · rintro ⟨hgt, hgA⟩
            refine ⟨List.mem_cons_of_mem _ hgt, ?_⟩
            rcases hgA with hgA | e
            · exact hgA
            · exact absurd (congrArg Segment.seq e)
                (tiles_head_seq_ne st.next_seq seg g t htile hTa2 hgt)
      · exact Nat.le_refl _
    · -- a segment that starts after the next expected number
      have hst : seg ∈ t := by
        rcases List.mem_cons.mp hpost with e | h1
        · exact absurd e hsh
        · exact h1
      obtain ⟨o, ho1, ho2, ho3, ho4, _, _⟩ := tiles_tail_member st.next_seq h seg t htile hst
      have hoh : o < seq_half := by simp only [seq_half] at *; omega
      have hd : seq_diff seg.seq st.next_seq = (o : Int) := by
        rw [ho1]; exact seq_diff_ahead st.next_seq o hoh
      have hlen0 : ¬ seg.payload.length = 0 := by omega
      have hd0 : ¬ ((o : Int) = 0) := by omega
      have hdpos : (0 : Int) < (o : Int) := by omega
      have hsegseq : seg.seq % seq_space = seg.seq := by
        rw [ho1]; exact Nat.mod_mod _ _
      have htrim : trim st.buffer (seg.seq % seq_space) seg.payload = [seg] := by
        have hp : seg.payload ≠ [] := by
          intro e; rw [e] at hlen0; exact hlen0 rfl
        have := trim_uncovered st.buffer seg.payload (seg.seq % seq_space)
          (Nat.mod_lt _ (by decide)) hp (by
            intro i hi
            simp only [covered, List.any_eq_false, decide_eq_true_eq]
            intro g hg
            obtain ⟨hga, hgA⟩ := (hbuf g).mp hg
            rw [hafter] at hga
            have hgne : g ≠ seg := fun e => hnew (e ▸ hgA)
            exact tiles_position_not_covered st.next_seq (h :: t) seg g i hnx htile hTa
              hpost hga hgne hi)
        rw [this, hsegseq]
      have hp : process st seg = some
          { st with buffer := st.buffer ++ trim st.buffer (seg.seq % seq_space) seg.payload } := by
        simp only [process, hlen0, hd, hd0, hdpos, if_true, if_false]
      refine ⟨_, hp, ?_⟩
      refine ⟨before, h :: t, hsplit, fun s hs => Or.inl (hbef s hs), hnext, hdel, ?_, ?_⟩
      · intro g
        show g ∈ st.buffer ++ trim st.buffer (seg.seq % seq_space) seg.payload ↔ _
        rw [htrim, List.mem_append, hbuf g, hafter, List.mem_singleton]
        constructor
        · rintro (⟨hg, hgA⟩ | e)
          · exact ⟨hg, Or.inl hgA⟩
          · exact ⟨e ▸ hpost, Or.inr e⟩
        · rintro ⟨hg, hgA | e⟩
          · exact Or.inl ⟨hg, hgA⟩
          · exact Or.inr e
      · intro h2 t2 e
        obtain ⟨e1, _⟩ := List.cons.inj e
        subst e1
        rintro (hA | e2)
        · exact hnAh hA
        · exact hsh e2.symm

/-- The arrivals of a whole list: segments of the tiling, none arrived before
and no two the same, are all accepted; the state is settled with all of them
counted as arrived. -/
theorem feed_settled (n0 : Nat) (d0 : List Nat) (segs : List Segment)
    (hn0 : n0 < seq_space) (ht : tiles n0 segs = true)
    (hT : total_length segs ≤ seq_half) :
    ∀ (arrival : List Segment) (A : Segment → Prop) (st : HalfStream),
      Settled n0 d0 segs A st → (∀ s ∈ arrival, s ∈ segs ∧ ¬ A s) → arrival.Nodup →
      ∃ st1, feed st arrival = some st1
        ∧ Settled n0 d0 segs (fun s => A s ∨ s ∈ arrival) st1 := by
  intro arrival
  induction arrival with
  | nil =>
    intro A st hst _ _
    have e : (fun s => A s ∨ s ∈ ([] : List Segment)) = A := by
      funext s; simp
    exact ⟨st, rfl, by rw [e]; exact hst⟩
  | cons a r ih =>
    intro A st hst hall hnd
    obtain ⟨ha, hAa⟩ := hall a (List.mem_cons_self _ _)
    obtain ⟨st1, hp, hst1⟩ := process_settled n0 d0 segs A hn0 ht hT st a hst ha hAa
    obtain ⟨har, hndr⟩ := List.nodup_cons.mp hnd
    obtain ⟨st2, hf, hst2⟩ := ih (fun s => A s ∨ s = a) st1 hst1 (by
      intro s hs
      obtain ⟨h1, h2⟩ := hall s (List.mem_cons_of_mem _ hs)
      refine ⟨h1, ?_⟩
      rintro (h3 | h3)
      · exact h2 h3
      · exact har (h3 ▸ hs)) hndr
    have e : (fun s => (A s ∨ s = a) ∨ s ∈ r) = (fun s => A s ∨ s ∈ a :: r) := by
      funext s; simp [or_assoc]
    refine ⟨st2, by simp only [feed, hp]; exact hf, by rw [← e]; exact hst2⟩

/-- C6, amended: for one direction of a stream whose buffer is empty, for every
list of non-empty segments that tile a contiguous range starting at the next
expected sequence number and holding at most 2^31 bytes in all, and for every
arrival order of those segments, every segment is accepted and the bytes
delivered, in delivery order, are the payloads concatenated in increasing
sequence-number order; the buffer is empty again and the next expected number
is the end of the range. -/
theorem reassembly_delivers_in_sequence_order (st : HalfStream)
    (sorted arrival : List Segment)
    (hn : st.next_seq < seq_space) (hb : st.buffer = [])
    (ht : tiles st.next_seq sorted = true)
    (hT : total_length sorted ≤ seq_half)
    (hp : arrival.Perm sorted) :
    ∃ st1, feed st arrival = some st1
      ∧ st1.delivered = st.delivered ++ payload_bytes sorted
      ∧ st1.buffer = []
      ∧ st1.next_seq = (st.next_seq + total_length sorted) % seq_space := by
  have hTs : total_length sorted < seq_space := by
    simp only [seq_space, seq_half] at *; omega
  have hnd : arrival.Nodup := (hp.nodup_iff).mpr (tiles_nodup sorted _ hn ht hTs)
  have h0 : Settled st.next_seq st.delivered sorted (fun _ => False) st := by
    refine ⟨[], sorted, rfl, ?_, ?_, ?_, ?_, ?_⟩
    · intro s hs; cases hs
    · simp only [total_length, Nat.add_zero]; exact (Nat.mod_eq_of_lt hn).symm
    · simp [payload_bytes]
    · intro f; simp [hb]
    · intro _ _ _ h; exact h
  obtain ⟨st1, hf, before, after, hsplit, hbef, hnext, hdel, hbuf, hhead⟩ :=
    feed_settled st.next_seq st.delivered sorted hn ht hT arrival (fun _ => False) st h0
      (fun s hs => ⟨hp.subset hs, fun h => h⟩) hnd
  have hafter : after = [] := by
    cases hafter : after with
    | nil => rfl
    | cons h t =>
      exfalso
      apply hhead h t hafter
      right
      apply hp.symm.subset
      rw [hsplit, hafter]
      exact List.mem_append_right _ (List.mem_cons_self _ _)
  rw [hafter, List.append_nil] at hsplit
  subst hsplit
  refine ⟨st1, hf, hdel, ?_, hnext⟩
  apply List.eq_nil_iff_forall_not_mem.mpr
  intro f hfm
  have := ((hbuf f).mp hfm).1
  rw [hafter] at this
  cases this

/-- Witness of the amended C6: the arrival order seq 0, seq 20, seq 10 of three
ten-byte segments delivers the bytes 0 to 29 in order. -/
theorem reassembly_delivers_in_sequence_order_witness :
    (0 : Nat) < seq_space
    ∧ tiles 0 [⟨0, sample_payload 0⟩, ⟨10, sample_payload 10⟩, ⟨20, sample_payload 20⟩] = true
    ∧ total_length
        [⟨0, sample_payload 0⟩, ⟨10, sample_payload 10⟩, ⟨20, sample_payload 20⟩] ≤ seq_half
    ∧ List.Perm
        [(⟨0, sample_payload 0⟩ : Segment), ⟨20, sample_payload 20⟩, ⟨10, sample_payload 10⟩]
        [⟨0, sample_payload 0⟩, ⟨10, sample_payload 10⟩, ⟨20, sample_payload 20⟩]
    ∧ ∃ st1,
        feed ⟨0, [], []⟩
            [⟨0, sample_payload 0⟩, ⟨20, sample_payload 20⟩, ⟨10, sample_payload 10⟩]
          = some st1
        ∧ st1.delivered = [] ++ payload_bytes
            [⟨0, sample_payload 0⟩, ⟨10, sample_payload 10⟩, ⟨20, sample_payload 20⟩]
        ∧ st1.buffer = []
        ∧ st1.next_seq = (0 + total_length
            [⟨0, sample_payload 0⟩, ⟨10, sample_payload 10⟩, ⟨20, sample_payload 20⟩])
            % seq_space :=
  ⟨by decide, by decide, by decide, List.Perm.cons _ (List.Perm.swap _ _ _),
    reassembly_delivers_in_sequence_order ⟨0, [], []⟩
      [⟨0, sample_payload 0⟩, ⟨10, sample_payload 10⟩, ⟨20, sample_payload 20⟩]
      [⟨0, sample_payload 0⟩, ⟨20, sample_payload 20⟩, ⟨10, sample_payload 10⟩]
      (by decide) rfl (by decide) (by decide)
      (List.Perm.cons _ (List.Perm.swap _ _ _))⟩

/-- The example of the specification, step by step: the segment at seq 0 is
delivered on arrival, the one at seq 20 is buffered, and the one at seq 10
releases both, so the bytes come out as 0 to 9, 10 to 19, 20 to 29. -/
theorem reassembly_example_trace :
    feed ⟨0, [], []⟩ [⟨0, sample_payload 0⟩]
      = some ⟨10, [], List.range 10⟩
    ∧ feed ⟨0, [], []⟩ [⟨0, sample_payload 0⟩, ⟨20, sample_payload 20⟩]
      = some ⟨10, [⟨20, sample_payload 20⟩], List.range 10⟩
    ∧ feed ⟨0, [], []⟩
        [⟨0, sample_payload 0⟩, ⟨20, sample_payload 20⟩, ⟨10, sample_payload 10⟩]
      = some ⟨30, [], List.range 30⟩ := by
  decide

/-- Why the property is stated for a half-stream with nothing buffered: with a
fragment from an earlier arrival buffered inside the range, the drain delivers
that fragment, and the segment of the tiling that overlaps it then starts
before the next expected number and ends after it, where the algorithm has no
rule. -/
theorem reassembly_with_earlier_fragment :
    feed ⟨0, [⟨10, [99]⟩], []⟩ [⟨0, sample_payload 0⟩]
      = some ⟨11, [], List.range 10 ++ [99]⟩
    ∧ feed ⟨0, [⟨10, [99]⟩], []⟩ [⟨0, sample_payload 0⟩, ⟨10, sample_payload 10⟩] = none := by
  decide

/-- A first segment of 2^31 bytes at seq 0 and a second of one byte at seq
2^31: they tile a range from 0, and when the second arrives first it is
discarded, so that only the first is delivered. -/
theorem beyond_half_space (p : List Nat) (hp : p.length = 2147483648) :
    tiles 0 [⟨0, p⟩, ⟨2147483648, [1]⟩] = true
    ∧ List.Perm [(⟨2147483648, [1]⟩ : Segment), ⟨0, p⟩] [⟨0, p⟩, ⟨2147483648, [1]⟩]
    ∧ process ⟨0, [], []⟩ ⟨2147483648, [1]⟩ = some ⟨0, [], []⟩
    ∧ feed ⟨0, [], []⟩ [⟨2147483648, [1]⟩, ⟨0, p⟩] = some ⟨2147483648, [], p⟩
    ∧ p ≠ payload_bytes [⟨0, p⟩, ⟨2147483648, [1]⟩] := by
  have hB : process ⟨0, [], []⟩ ⟨2147483648, [1]⟩ = some ⟨0, [], []⟩ := by decide
  have hA : process ⟨0, [], []⟩ ⟨0, p⟩ = some ⟨2147483648, [], p⟩ := by
    simp [process, hp, seq_diff, drain]
  refine ⟨?_, List.Perm.swap _ _ _, hB, ?_, ?_⟩
  · simp [tiles, hp, seq_space]
  · simp only [feed, hB, hA]
  · intro h
    have := congrArg List.length h
    simp [payload_bytes, hp] at this

/-- The payload of half the sequence space has 2^31 bytes. -/
theorem half_space_payload_length : half_space_payload.length = 2147483648 := by
  simp only [half_space_payload, List.length_replicate]

/-- C6, as stated, fails: a first segment of 2^31 bytes at seq 0 and a second
of one byte at seq 2^31 tile a contiguous range from the next expected number
0. When the second arrives first its signed distance from 0 is negative, it is
discarded as a retransmission, and its byte is never delivered. -/
theorem reassembly_beyond_half_space_counterexample :
    tiles 0 [⟨0, half_space_payload⟩, ⟨2147483648, [1]⟩] = true
    ∧ List.Perm [(⟨2147483648, [1]⟩ : Segment), ⟨0, half_space_payload⟩]
        [⟨0, half_space_payload⟩, ⟨2147483648, [1]⟩]
    ∧ process ⟨0, [], []⟩ ⟨2147483648, [1]⟩ = some ⟨0, [], []⟩
    ∧ feed ⟨0, [], []⟩ [⟨2147483648, [1]⟩, ⟨0, half_space_payload⟩]
        = some ⟨2147483648, [], half_space_payload⟩
    ∧ half_space_payload
        ≠ payload_bytes [⟨0, half_space_payload⟩, ⟨2147483648, [1]⟩] :=
  beyond_half_space half_space_payload half_space_payload_length

end Tins
